import Mathlib

/-!
Shallow embedding of the Arbitrage_Engine repository
(`app/services/odds_fetcher.py`, `app/services/arbitrage_engine.py`,
`app/config.py`) and verification of its specification claims.

Python numbers (ints and floats used in the odds math) are modelled as
rationals; Python dicts whose iteration/insertion order matters are
modelled as association lists with insert-or-replace semantics; fallible
code is modelled with `Except`/`Option`; the HTTP layer is modelled as an
oracle assigning a response to each request the code issues.
-/

namespace ArbEngine

/-! ### Python dict primitives -/

/-- Python `dict.get`: the first binding of the key, if any.  Keys in the
association lists built below are unique, so this is the dict lookup. -/
def dictGet {α : Type} (l : List (String × α)) (k : String) : Option α :=
  match l with
  | [] => none
  | (k', v) :: rest => if k' = k then some v else dictGet rest k

/-- Python `d[k] = v`: replace the value in place if the key is bound
(keeping its insertion position), otherwise append the new binding. -/
def dictInsert {α : Type} (l : List (String × α)) (k : String) (v : α) : List (String × α) :=
  match l with
  | [] => [(k, v)]
  | (k', v') :: rest => if k' = k then (k, v) :: rest else (k', v') :: dictInsert rest k v

/-- Python `d.setdefault(k, dflt)` followed by in-place mutation `f` of the
returned bucket: update the bound value if present, else bind `k` to
`f dflt` at the end. -/
def dictUpdate {α : Type} (l : List (String × α)) (k : String) (dflt : α) (f : α → α) :
    List (String × α) :=
  match l with
  | [] => [(k, f dflt)]
  | (k', v) :: rest => if k' = k then (k', f v) :: rest else (k', v) :: dictUpdate rest k dflt f

/-! ### Rounding -/

/-- Python's `round` on floats rounds half to even.  This is
round-half-to-even on rationals: the integer nearest to `x`, ties going
to the even integer. -/
def roundHalfEven (x : ℚ) : ℤ :=
  let f : ℤ := ⌊x⌋
  if x - f < 1/2 then f
  else if 1/2 < x - f then f + 1
  else if Even f then f else f + 1

/-- Python's `round(x, ndigits)`: round-half-even at `ndigits` decimal
places. -/
def pythonRound (x : ℚ) (ndigits : ℕ) : ℚ :=
  (roundHalfEven (x * 10 ^ ndigits) : ℚ) / 10 ^ ndigits

/-! ### `config.py` -/

/-- Embedding of `SPORT_KEY_ALIASES` from `config.py`. -/
def SPORT_KEY_ALIASES : List (String × String) :=
  [("nhl", "icehockey_nhl"),
   ("nfl", "americanfootball_nfl"),
   ("soccer", "soccer_usa_mls"),
   ("nba", "basketball_nba"),
   ("mlb", "baseball_mlb"),
   ("ufc", "mma_mixed_martial_arts")]

/-- Embedding of `resolve_sport_key` from `config.py`. -/
def resolve_sport_key (sport_key : String) : String :=
  (dictGet SPORT_KEY_ALIASES sport_key).getD sport_key

/-! ### `odds_fetcher.py`: odds conversion -/

/-- Embedding of `odds_to_probability` from `odds_fetcher.py`: convert
American odds into implied probability. -/
def odds_to_probability (odds : ℚ) : ℚ :=
  if odds > 0 then 100 / (odds + 100)
  else |odds| / (|odds| + 100)

/-! ### `odds_fetcher.py`: HTTP layer and retry policy -/

/-- The parse state of a `Retry-After` header as seen by the retry loop:
`missing` covers an absent header and an empty string (both falsy in
Python, yielding a wait of 0 before the fallback); `badValue` is a header
on which `float()` raises `ValueError`; `value q` parses as `q`. -/
inductive HeaderVal where
  | missing
  | badValue
  | value (q : ℚ)
  deriving DecidableEq

/-- The data carried by `exc.response` on an `HTTPError`. -/
structure ErrResp where
  status_code : ℤ
  retry_after : HeaderVal
  deriving DecidableEq

/-- An `HTTPError`'s payload: `exc.response`, which may be `None`. -/
abbrev HErr := Option ErrResp

/-- The response the network returns for one issued request. -/
inductive Resp (α : Type) where
  | success (payload : α)
  | failure (response : HErr)

/-- Embedding of `_request` from `odds_fetcher.py`, given the response the
network produces for the issued request: `raise_for_status` turns a
non-success response into a raised `HTTPError`, otherwise the parsed
payload is returned. -/
def _request {α : Type} (response : Resp α) : Except HErr α :=
  match response with
  | .success payload => .ok payload
  | .failure e => .error e

/-- Lines 57 of `odds_fetcher.py`:
`exc.response.status_code if exc.response is not None else None`. -/
def statusOf (e : HErr) : Option ℤ :=
  e.map ErrResp.status_code

/-- The `Retry-After` header of the failed response (only read on the 429
path, where the response is present). -/
def headerOf (e : HErr) : HeaderVal :=
  match e with
  | some r => r.retry_after
  | none => .missing

/-- Lines 61-68 of `odds_fetcher.py`: the wait before the next attempt.
A parsed positive `Retry-After` value is used as-is; an absent, invalid,
or non-positive value falls back to `2 ** attempt`. -/
def wait_for (h : HeaderVal) (attempt : ℕ) : ℚ :=
  let wait_seconds : ℚ := match h with | .value q => q | _ => 0
  if wait_seconds ≤ 0 then (2 : ℚ) ^ attempt else wait_seconds

/-- The retry loop of `_request_with_429_retry`, started at a given
attempt number.  `net n` is the response the network gives to the
`n`-th request this call issues.  Returns the list of waits slept (in
order) together with the outcome. -/
def retry_go {α : Type} (net : ℕ → Resp α) (max_retries attempt : ℕ) :
    List ℚ × Except HErr α :=
  match _request (net attempt) with
  | .ok payload => ([], .ok payload)
  | .error e =>
    if h : statusOf e ≠ some 429 ∨ max_retries ≤ attempt then ([], .error e)
    else
      let w := wait_for (headerOf e) attempt
      let rest := retry_go net max_retries (attempt + 1)
      (w :: rest.1, rest.2)
  termination_by max_retries - attempt
  decreasing_by
    push_neg at h
    omega

/-- Embedding of `_request_with_429_retry` from `odds_fetcher.py`
(attempt counter starts at 0). -/
def _request_with_429_retry {α : Type} (net : ℕ → Resp α) (max_retries : ℕ) :
    List ℚ × Except HErr α :=
  retry_go net max_retries 0

/-! ### `odds_fetcher.py`: raw payload shapes -/

/-- A raw outcome record: a JSON object whose fields may each be absent. -/
structure RawOutcome where
  name : Option String
  description : Option String
  point : Option ℚ
  price : Option ℚ
  deriving DecidableEq

/-- A raw market record. -/
structure RawMarket where
  key : Option String
  outcomes : List RawOutcome
  deriving DecidableEq

/-- A raw bookmaker record. -/
structure RawBookmaker where
  title : Option String
  key : Option String
  markets : List RawMarket
  deriving DecidableEq

/-- A raw per-sport game record. -/
structure RawGame where
  id : Option String
  home_team : Option String
  away_team : Option String
  commence_time : Option String
  bookmakers : List RawBookmaker
  deriving DecidableEq

/-- A raw per-event odds payload; `{}` is `⟨[]⟩` (Python's
`.get("bookmakers", [])` then yields the empty list). -/
structure RawEvent where
  bookmakers : List RawBookmaker
  deriving DecidableEq

/-! ### `odds_fetcher.py`: fetchers -/

/-- Embedding of `fetch_upcoming_games` from `odds_fetcher.py`: resolve
the sport alias, then issue a single `_request` for the `h2h` market.
`net n path markets` is the network's response to the `n`-th request this
call issues on `path`. -/
def fetch_upcoming_games {α : Type} (net : ℕ → String → List String → Resp α)
    (sport_key : String) : Except HErr α :=
  let sport := resolve_sport_key sport_key
  _request (net 0 ("/sports/" ++ sport ++ "/odds") ["h2h"])

/-- Embedding of `fetch_event_props` from `odds_fetcher.py`.  An empty
markets list short-circuits to `({}, 0)` with no request; otherwise the
request runs under the 429 retry policy (`max_retries = 3`), and a final
failure is converted into `({}, 1)` rather than propagated. -/
def fetch_event_props (net : ℕ → String → List String → Resp RawEvent)
    (sport_key event_id : String) (markets : List String) : RawEvent × ℕ :=
  if markets.isEmpty then (⟨[]⟩, 0)
  else
    let sport := resolve_sport_key sport_key
    let path := "/sports/" ++ sport ++ "/events/" ++ event_id ++ "/odds"
    match (_request_with_429_retry (fun n => net n path markets) 3).2 with
    | .ok payload => (payload, 0)
    | .error _ => (⟨[]⟩, 1)

/-! ### `odds_fetcher.py`: normalization -/

/-- The `{"odds": ..., "implied_prob": ...}` entry stored per team/side
per book. -/
structure PriceEntry where
  odds : ℚ
  implied_prob : ℚ
  deriving DecidableEq

/-- Books mapping: bookmaker name → (team/side name → price entry), in
insertion order. -/
abbrev Books := List (String × List (String × PriceEntry))

/-- The normalized per-game record built by `normalize_moneyline_odds`. -/
structure GameData where
  game_id : String
  home_team : String
  away_team : String
  commence_time : Option String
  books : Books
  deriving DecidableEq

/-- Line 124 / 164 of `odds_fetcher.py`:
`bookmaker.get("title", bookmaker.get("key"))`. -/
def book_name_of (bookmaker : RawBookmaker) : Option String :=
  match bookmaker.title with
  | some t => some t
  | none => bookmaker.key

/-- The inner outcome loop of `normalize_moneyline_odds` (lines 135-145):
outcomes missing a team name or a price are skipped; valid ones are
written into the teams dict. -/
def moneyline_teams_of (market : RawMarket) : List (String × PriceEntry) :=
  market.outcomes.foldl
    (fun teams outcome =>
      match outcome.name, outcome.price with
      | some team, some odds => dictInsert teams team ⟨odds, odds_to_probability odds⟩
      | _, _ => teams)
    []

/-- The bookmaker loop of `normalize_moneyline_odds` (lines 123-148): a
bookmaker with no usable (truthy) name is skipped, as is one without an
`h2h` market; a bookmaker whose `h2h` market yields no valid outcome is
not recorded. -/
def moneyline_books_of (bookmakers : List RawBookmaker) : Books :=
  bookmakers.foldl
    (fun books bookmaker =>
      match book_name_of bookmaker with
      | none => books
      | some book_name =>
        if book_name = "" then books
        else
          match bookmaker.markets.find? (fun m => m.key == some "h2h") with
          | none => books
          | some market =>
            let teams := moneyline_teams_of market
            if teams.isEmpty then books else dictInsert books book_name teams)
    []

/-- Embedding of `normalize_moneyline_odds` from `odds_fetcher.py`.  The
subscript accesses `game["id"]`, `game["home_team"]`, `game["away_team"]`
raise `KeyError` (modelled as `Except.error` naming the key, aborting the
whole normalization); everything below them is total. -/
def normalize_moneyline_odds (raw_games : List RawGame) :
    Except String (List (String × GameData)) :=
  raw_games.foldlM
    (fun normalized game =>
      match game.id with
      | none => .error "id"
      | some game_id =>
        match game.home_team with
        | none => .error "home_team"
        | some home_team =>
          match game.away_team with
          | none => .error "away_team"
          | some away_team =>
            .ok (dictInsert normalized game_id
              { game_id := game_id
                home_team := home_team
                away_team := away_team
                commence_time := game.commence_time
                books := moneyline_books_of game.bookmakers }))
    []

/-- A player-line bucket built by `normalize_prop_odds`. -/
structure PlayerLineEntry where
  player : String
  line : ℚ
  books : Books
  deriving DecidableEq

/-- One prop market's buckets: player-line key → bucket. -/
abbrev PropMarketBucket := List (String × PlayerLineEntry)

/-- All prop markets of one game: market type → buckets. -/
abbrev PropMarkets := List (String × PropMarketBucket)

/-- Line 186 of `odds_fetcher.py`: `f"{player}|{line}"`. -/
def player_line_key (player : String) (line : ℚ) : String :=
  player ++ "|" ++ toString line

/-- The outcome loop body of `normalize_prop_odds` (lines 175-198): an
outcome whose side is not exactly `Over` or `Under`, or which is missing
player, line, or price, leaves the bucket untouched; a valid outcome is
recorded under its player-line key for the current bookmaker. -/
def prop_outcome_step (book_name : String) (market_bucket : PropMarketBucket)
    (outcome : RawOutcome) : PropMarketBucket :=
  match outcome.name, outcome.description, outcome.point, outcome.price with
  | some side, some player, some line, some odds =>
    if side = "Over" ∨ side = "Under" then
      dictUpdate market_bucket (player_line_key player line)
        ⟨player, line, []⟩
        (fun entry =>
          { entry with books :=
              (dictUpdate entry.books book_name []
                (fun book_entry =>
                  dictInsert book_entry side ⟨odds, odds_to_probability odds⟩)) })
    else market_bucket
  | _, _, _, _ => market_bucket

/-- Embedding of `normalize_prop_odds` from `odds_fetcher.py`. -/
def normalize_prop_odds (game_id : String) (raw_event_odds : RawEvent) :
    List (String × PropMarkets) :=
  let markets :=
    raw_event_odds.bookmakers.foldl
      (fun acc bookmaker =>
        match book_name_of bookmaker with
        | none => acc
        | some book_name =>
          if book_name = "" then acc
          else
            bookmaker.markets.foldl
              (fun acc market =>
                match market.key with
                | none => acc
                | some market_type =>
                  if market_type = "" then acc
                  else
                    dictUpdate acc market_type []
                      (fun market_bucket =>
                        market.outcomes.foldl (prop_outcome_step book_name) market_bucket))
              acc)
      []
  [(game_id, markets)]

/-! ### `arbitrage_engine.py` -/

/-- A best-price selection, as built by `_best_price_for_team` /
`_best_prop_side`: the dict `{"book": ..., "odds": ..., "implied_prob": ...}`. -/
structure Side where
  book : String
  odds : ℚ
  implied_prob : ℚ
  deriving DecidableEq

/-- The opportunity record returned by `detect_two_way_arbitrage`. -/
structure Opportunity where
  profit_percent : ℚ
  over_book : String
  under_book : String
  over_odds : ℚ
  under_odds : ℚ
  deriving DecidableEq

/-- Embedding of `detect_two_way_arbitrage` from `arbitrage_engine.py`. -/
def detect_two_way_arbitrage (side_a side_b : Option Side) : Option Opportunity :=
  match side_a, side_b with
  | some a, some b =>
    let total_prob := a.implied_prob + b.implied_prob
    if total_prob ≥ 1 then none
    else some
      { profit_percent := pythonRound ((1 - total_prob) * 100) 3
        over_book := a.book
        under_book := b.book
        over_odds := a.odds
        under_odds := b.odds }
  | _, _ => none

/-- Embedding of `_best_price_for_team` from `arbitrage_engine.py`: scan
the books in order, keeping the entry whose odds strictly exceed the
best seen so far. -/
def _best_price_for_team (game_data : GameData) (team_name : String) : Option Side :=
  game_data.books.foldl
    (fun best bt =>
      match dictGet bt.2 team_name with
      | none => best
      | some team_data =>
        match best with
        | none => some ⟨bt.1, team_data.odds, team_data.implied_prob⟩
        | some b =>
          if team_data.odds > b.odds then some ⟨bt.1, team_data.odds, team_data.implied_prob⟩
          else some b)
    none

/-- Embedding of `_best_prop_side` from `arbitrage_engine.py`: the same
scan as `_best_price_for_team`, over a books mapping keyed by side. -/
def _best_prop_side (books_data : Books) (side_name : String) : Option Side :=
  books_data.foldl
    (fun best bt =>
      match dictGet bt.2 side_name with
      | none => best
      | some side_data =>
        match best with
        | none => some ⟨bt.1, side_data.odds, side_data.implied_prob⟩
        | some b =>
          if side_data.odds > b.odds then some ⟨bt.1, side_data.odds, side_data.implied_prob⟩
          else some b)
    none

/-- A standardized opportunity row as appended by the detectors; the
fields of the inner arbitrage record are merged in via `**arb`. -/
structure OppRow where
  game_id : String
  market_type : String
  player_name : Option String
  line_value : Option ℚ
  home_team : Option String
  away_team : Option String
  arb : Opportunity
  deriving DecidableEq

/-- Embedding of `detect_moneyline_arbitrage` from `arbitrage_engine.py`. -/
def detect_moneyline_arbitrage (games_by_id : List (String × GameData)) : List OppRow :=
  games_by_id.foldl
    (fun opportunities gp =>
      let home := _best_price_for_team gp.2 gp.2.home_team
      let away := _best_price_for_team gp.2 gp.2.away_team
      match detect_two_way_arbitrage home away with
      | none => opportunities
      | some arb =>
        opportunities ++
          [{ game_id := gp.1
             market_type := "h2h"
             player_name := none
             line_value := none
             home_team := some gp.2.home_team
             away_team := some gp.2.away_team
             arb := arb }])
    []

/-- Embedding of `detect_prop_arbitrage` from `arbitrage_engine.py`. -/
def detect_prop_arbitrage (normalized_props : List (String × PropMarkets)) : List OppRow :=
  normalized_props.foldl
    (fun opportunities gp =>
      gp.2.foldl
        (fun opportunities mp =>
          mp.2.foldl
            (fun opportunities pl =>
              let over := _best_prop_side pl.2.books "Over"
              let under := _best_prop_side pl.2.books "Under"
              match detect_two_way_arbitrage over under with
              | none => opportunities
              | some arb =>
                opportunities ++
                  [{ game_id := gp.1
                     market_type := mp.1
                     player_name := some pl.2.player
                     line_value := some pl.2.line
                     home_team := none
                     away_team := none
                     arb := arb }])
            opportunities)
        opportunities)
    []

/-! ### Reference functions for the best-price characterization -/

/-- The entries a books mapping offers for a given team/side name, as
`Side` records in encounter order. -/
def offersFor (books : Books) (name : String) : List Side :=
  books.filterMap
    (fun bt => (dictGet bt.2 name).map (fun d => ⟨bt.1, d.odds, d.implied_prob⟩))

/-- First-argmax selection over a nonempty list of sides, mirroring the
best-price scan: the candidate is replaced only on strictly greater
odds. -/
def pickBest (b : Side) : List Side → Side
  | [] => b
  | x :: xs => if x.odds > b.odds then pickBest x xs else pickBest b xs

/-- The best-price scan as a function of the offered entries alone. -/
def bestOf (l : List Side) : Option Side :=
  match l with
  | [] => none
  | x :: xs => some (pickBest x xs)

/-- The rows the moneyline detector appends for one game (empty when the
two best prices do not form an arbitrage). -/
def ml_rows_of (gp : String × GameData) : List OppRow :=
  match detect_two_way_arbitrage (_best_price_for_team gp.2 gp.2.home_team)
      (_best_price_for_team gp.2 gp.2.away_team) with
  | none => []
  | some arb =>
    [{ game_id := gp.1
       market_type := "h2h"
       player_name := none
       line_value := none
       home_team := some gp.2.home_team
       away_team := some gp.2.away_team
       arb := arb }]

/-- The rows the prop detector appends for one player-line bucket. -/
def prop_rows_of (game_id market_type : String) (pl : String × PlayerLineEntry) : List OppRow :=
  match detect_two_way_arbitrage (_best_prop_side pl.2.books "Over")
      (_best_prop_side pl.2.books "Under") with
  | none => []
  | some arb =>
    [{ game_id := game_id
       market_type := market_type
       player_name := some pl.2.player
       line_value := some pl.2.line
       home_team := none
       away_team := none
       arb := arb }]

end ArbEngine

namespace ArbEngine

/-! ### Helper lemmas: the best-price scan as first-argmax selection -/

theorem best_fold_some (books : Books) (name : String) :
    ∀ b : Side,
      books.foldl
        (fun best bt =>
          match dictGet bt.2 name with
          | none => best
          | some d =>
            match best with
            | none => some ⟨bt.1, d.odds, d.implied_prob⟩
            | some c =>
              if d.odds > c.odds then some ⟨bt.1, d.odds, d.implied_prob⟩
              else some c)
        (some b)
      = some (pickBest b (offersFor books name)) := by
  induction books with
  | nil => intro b; rfl
  | cons bt rest ih =>
    intro b
    simp only [List.foldl_cons, offersFor, List.filterMap_cons]
    cases h : dictGet bt.2 name with
    | none => simpa [h, offersFor] using ih b
    | some d =>
      simp only [h, Option.map_some]
      by_cases hlt : d.odds > b.odds
      · simpa [hlt, pickBest, offersFor] using ih ⟨bt.1, d.odds, d.implied_prob⟩
      · simpa [hlt, pickBest, offersFor] using ih b

theorem best_fold_none (books : Books) (name : String) :
    books.foldl
      (fun best bt =>
        match dictGet bt.2 name with
        | none => best
        | some d =>
          match best with
          | none => some ⟨bt.1, d.odds, d.implied_prob⟩
          | some c =>
            if d.odds > c.odds then some ⟨bt.1, d.odds, d.implied_prob⟩
            else some c)
      none
    = bestOf (offersFor books name) := by
  induction books with
  | nil => rfl
  | cons bt rest ih =>
    simp only [List.foldl_cons, offersFor, List.filterMap_cons]
    cases h : dictGet bt.2 name with
    | none => simpa [h, offersFor] using ih
    | some d =>
      simp only [h, Option.map_some]
      simpa [bestOf, offersFor] using best_fold_some rest name ⟨bt.1, d.odds, d.implied_prob⟩

theorem best_price_eq_bestOf (game_data : GameData) (team_name : String) :
    _best_price_for_team game_data team_name = bestOf (offersFor game_data.books team_name) :=
  best_fold_none game_data.books team_name

theorem best_prop_eq_bestOf (books_data : Books) (side_name : String) :
    _best_prop_side books_data side_name = bestOf (offersFor books_data side_name) :=
  best_fold_none books_data side_name

theorem pickBest_le (l : List Side) :
    ∀ b : Side, b.odds ≤ (pickBest b l).odds ∧ ∀ x ∈ l, x.odds ≤ (pickBest b l).odds := by
  induction l with
  | nil => intro b; exact ⟨le_refl _, by simp⟩
  | cons x xs ih =>
    intro b
    simp only [pickBest]
    by_cases h : x.odds > b.odds
    · rw [if_pos h]
      obtain ⟨h1, h2⟩ := ih x
      refine ⟨le_of_lt (lt_of_lt_of_le h h1), ?_⟩
      intro y hy
      rcases List.mem_cons.mp hy with rfl | hy
      · exact h1
      · exact h2 y hy
    · rw [if_neg h]
      obtain ⟨h1, h2⟩ := ih b
      refine ⟨h1, ?_⟩
      intro y hy
      rcases List.mem_cons.mp hy with rfl | hy
      · exact le_trans (not_lt.mp h) h1
      · exact h2 y hy

theorem pickBest_mem (l : List Side) :
    ∀ b : Side, pickBest b l = b ∨ pickBest b l ∈ l := by
  induction l with
  | nil => intro b; left; rfl
  | cons x xs ih =>
    intro b
    simp only [pickBest]
    by_cases h : x.odds > b.odds
    · rw [if_pos h]
      rcases ih x with h1 | h1
      · right; rw [h1]; exact List.mem_cons_self x xs
      · right; exact List.mem_cons_of_mem x h1
    · rw [if_neg h]
      rcases ih b with h1 | h1
      · left; exact h1
      · right; exact List.mem_cons_of_mem x h1

theorem pickBest_first (l : List Side) :
    ∀ b : Side, pickBest b l = b ∨
      ∃ i, ∃ hi : i < l.length, l.get ⟨i, hi⟩ = pickBest b l ∧
        b.odds < (pickBest b l).odds ∧
        ∀ j, ∀ hj : j < l.length, j < i → (l.get ⟨j, hj⟩).odds < (pickBest b l).odds := by
  induction l with
  | nil => intro b; left; rfl
  | cons x xs ih =>
    intro b
    simp only [pickBest]
    by_cases h : x.odds > b.odds
    · rw [if_pos h]
      right
      rcases ih x with h1 | ⟨i, hi, hget, hlt, hearlier⟩
      · refine ⟨0, by simp, ?_, ?_, ?_⟩
        · simpa using h1.symm
        · rw [h1]; exact h
        · intro j hj hj0; omega
      · refine ⟨i + 1, Nat.succ_lt_succ hi, ?_, lt_trans h hlt, ?_⟩
        · exact hget
        · intro j hj hji
          cases j with
          | zero => exact hlt
          | succ j' => exact hearlier j' (Nat.lt_of_succ_lt_succ hj) (Nat.lt_of_succ_lt_succ hji)
    · rw [if_neg h]
      rcases ih b with h1 | ⟨i, hi, hget, hlt, hearlier⟩
      · left; exact h1
      · right
        refine ⟨i + 1, Nat.succ_lt_succ hi, hget, hlt, ?_⟩
        intro j hj hji
        cases j with
        | zero => exact lt_of_le_of_lt (not_lt.mp h) hlt
        | succ j' => exact hearlier j' (Nat.lt_of_succ_lt_succ hj) (Nat.lt_of_succ_lt_succ hji)

theorem bestOf_eq_none_iff (l : List Side) : bestOf l = none ↔ l = [] := by
  cases l <;> simp [bestOf]

theorem bestOf_mem_max (l : List Side) (m : Side) (hm : bestOf l = some m) :
    m ∈ l ∧ ∀ x ∈ l, x.odds ≤ m.odds := by
  cases l with
  | nil => simp [bestOf] at hm
  | cons x xs =>
    simp only [bestOf, Option.some.injEq] at hm
    subst hm
    constructor
    · rcases pickBest_mem xs x with h | h
      · rw [h]; exact List.mem_cons_self x xs
      · exact List.mem_cons_of_mem x h
    · intro y hy
      rcases List.mem_cons.mp hy with rfl | hy
      · exact (pickBest_le xs y).1
      · exact (pickBest_le xs x).2 y hy

theorem bestOf_first (l : List Side) (m : Side) (hm : bestOf l = some m) :
    ∃ i, ∃ hi : i < l.length, l.get ⟨i, hi⟩ = m ∧
      ∀ j, ∀ hj : j < l.length, j < i → (l.get ⟨j, hj⟩).odds < m.odds := by
  cases l with
  | nil => simp [bestOf] at hm
  | cons x xs =>
    simp only [bestOf, Option.some.injEq] at hm
    subst hm
    rcases pickBest_first xs x with h | ⟨i, hi, hget, hlt, hearlier⟩
    · refine ⟨0, by simp, by simpa using h.symm, ?_⟩
      intro j hj hj0; omega
    · refine ⟨i + 1, Nat.succ_lt_succ hi, hget, ?_⟩
      intro j hj hji
      cases j with
      | zero => exact hlt
      | succ j' => exact hearlier j' (Nat.lt_of_succ_lt_succ hj) (Nat.lt_of_succ_lt_succ hji)

/-! ### Claim theorems -/

/-- C1: two-way arbitrage evaluation: an absent side yields no
opportunity; a combined implied probability of at least 1 (including
exactly 1) yields no opportunity; a combined implied probability below 1
yields an opportunity whose `profit_percent` is `round((1 - sum) * 100, 3)`,
whose over leg carries `side_a`'s book and odds and whose under leg
carries `side_b`'s. -/
theorem detect_two_way_arbitrage_spec :
    (∀ x : Option Side,
      detect_two_way_arbitrage none x = none ∧ detect_two_way_arbitrage x none = none) ∧
    (∀ a b : Side, 1 ≤ a.implied_prob + b.implied_prob →
      detect_two_way_arbitrage (some a) (some b) = none) ∧
    (∀ a b : Side, a.implied_prob + b.implied_prob < 1 →
      detect_two_way_arbitrage (some a) (some b) =
        some { profit_percent := pythonRound ((1 - (a.implied_prob + b.implied_prob)) * 100) 3
               over_book := a.book
               under_book := b.book
               over_odds := a.odds
               under_odds := b.odds }) := by
  refine ⟨?_, ?_, ?_⟩
  · intro x
    exact ⟨by cases x <;> rfl, by cases x <;> rfl⟩
  · intro a b h
    simp [detect_two_way_arbitrage, ge_iff_le, h]
  · intro a b h
    simp [detect_two_way_arbitrage, ge_iff_le, not_le.mpr h]

/-- C1 witness: the spec's scenario of +120 against +150 (implied
probabilities 5/11 and 2/5), and a no-arbitrage pair summing above 1. -/
theorem detect_two_way_arbitrage_spec_witness :
    detect_two_way_arbitrage (some ⟨"BookA", 120, 5/11⟩) (some ⟨"BookB", 150, 2/5⟩) =
      some { profit_percent := pythonRound ((1 - ((5 : ℚ)/11 + 2/5)) * 100) 3
             over_book := "BookA"
             under_book := "BookB"
             over_odds := 120
             under_odds := 150 } ∧
    detect_two_way_arbitrage (some ⟨"BookA", -110, 21/40⟩) (some ⟨"BookB", -110, 21/40⟩) = none :=
  ⟨detect_two_way_arbitrage_spec.2.2 ⟨"BookA", 120, 5/11⟩ ⟨"BookB", 150, 2/5⟩ (by norm_num),
   detect_two_way_arbitrage_spec.2.1 ⟨"BookA", -110, 21/40⟩ ⟨"BookB", -110, 21/40⟩ (by norm_num)⟩

/-- C3: best-price selection (for moneyline teams and for prop sides
alike) returns `none` exactly when no bookmaker offers the target name;
otherwise it returns an offered entry of maximal raw odds, and that entry
sits at a position all of whose predecessors have strictly smaller odds —
so on an exact tie the bookmaker encountered first in input order wins. -/
theorem best_price_selection_spec :
    (∀ (game_data : GameData) (team_name : String),
      (_best_price_for_team game_data team_name = none ↔
        offersFor game_data.books team_name = []) ∧
      (∀ m, _best_price_for_team game_data team_name = some m →
        m ∈ offersFor game_data.books team_name ∧
        (∀ x ∈ offersFor game_data.books team_name, x.odds ≤ m.odds) ∧
        ∃ i, ∃ hi : i < (offersFor game_data.books team_name).length,
          (offersFor game_data.books team_name).get ⟨i, hi⟩ = m ∧
          ∀ j, ∀ hj : j < (offersFor game_data.books team_name).length, j < i →
            ((offersFor game_data.books team_name).get ⟨j, hj⟩).odds < m.odds)) ∧
    (∀ (books_data : Books) (side_name : String),
      (_best_prop_side books_data side_name = none ↔
        offersFor books_data side_name = []) ∧
      (∀ m, _best_prop_side books_data side_name = some m →
        m ∈ offersFor books_data side_name ∧
        (∀ x ∈ offersFor books_data side_name, x.odds ≤ m.odds) ∧
        ∃ i, ∃ hi : i < (offersFor books_data side_name).length,
          (offersFor books_data side_name).get ⟨i, hi⟩ = m ∧
          ∀ j, ∀ hj : j < (offersFor books_data side_name).length, j < i →
            ((offersFor books_data side_name).get ⟨j, hj⟩).odds < m.odds)) := by
  constructor
  · intro game_data team_name
    rw [best_price_eq_bestOf]
    refine ⟨bestOf_eq_none_iff _, ?_⟩
    intro m hm
    obtain ⟨h1, h2⟩ := bestOf_mem_max _ m hm
    exact ⟨h1, h2, bestOf_first _ m hm⟩
  · intro books_data side_name
    rw [best_prop_eq_bestOf]
    refine ⟨bestOf_eq_none_iff _, ?_⟩
    intro m hm
    obtain ⟨h1, h2⟩ := bestOf_mem_max _ m hm
    exact ⟨h1, h2, bestOf_first _ m hm⟩

/-- C3 witness: on a two-book exact tie the first book wins, for both
selection routines. -/
theorem best_price_selection_spec_witness :
    (⟨"BookA", (100 : ℚ), 0⟩ : Side) ∈
      offersFor [("BookA", [("H", ⟨100, 0⟩)]), ("BookB", [("H", ⟨100, 0⟩)])] "H" ∧
    (⟨"BookA", (100 : ℚ), 0⟩ : Side) ∈
      offersFor [("BookA", [("Over", ⟨100, 0⟩)]), ("BookB", [("Over", ⟨100, 0⟩)])] "Over" :=
  ⟨((best_price_selection_spec.1
      ⟨"g", "H", "A", none, [("BookA", [("H", ⟨100, 0⟩)]), ("BookB", [("H", ⟨100, 0⟩)])]⟩
      "H").2 ⟨"BookA", 100, 0⟩ (by decide)).1,
   ((best_price_selection_spec.2
      [("BookA", [("Over", ⟨100, 0⟩)]), ("BookB", [("Over", ⟨100, 0⟩)])]
      "Over").2 ⟨"BookA", 100, 0⟩ (by decide)).1⟩

/-- Monotonicity of the implied-probability formula on the American-odds
domain: among prices with `|odds| ≥ 100`, a numerically greater odds
value never has a greater implied probability. -/
theorem odds_prob_antitone (a b : ℚ) (ha : 100 ≤ |a|) (hb : 100 ≤ |b|) (hba : b < a) :
    odds_to_probability a ≤ odds_to_probability b := by
  rcases le_abs.mp ha with ha1 | ha1
  · rcases le_abs.mp hb with hb1 | hb1
    · unfold odds_to_probability
      rw [if_pos (by linarith : a > 0), if_pos (by linarith : b > 0)]
      rw [div_le_div_iff₀ (by linarith) (by linarith)]
      nlinarith
    · unfold odds_to_probability
      rw [if_pos (by linarith : a > 0), if_neg (by push_neg; linarith : ¬ b > 0)]
      rw [abs_of_nonpos (by linarith : b ≤ 0)]
      rw [div_le_div_iff₀ (by linarith) (by linarith)]
      nlinarith [mul_le_mul ha1 hb1 (by norm_num : (0 : ℚ) ≤ 100) (by linarith : (0 : ℚ) ≤ a)]
  · have hb2 : b ≤ -100 := by linarith
    unfold odds_to_probability
    rw [if_neg (by push_neg; linarith : ¬ a > 0), if_neg (by push_neg; linarith : ¬ b > 0)]
    rw [abs_of_nonpos (by linarith : a ≤ 0), abs_of_nonpos (by linarith : b ≤ 0)]
    rw [div_le_div_iff₀ (by linarith) (by linarith)]
    nlinarith

/-- C4 counterexample: the claim quantifies over every pair of nonzero
odds, but for odds strictly between -100 and +100 the formula is not
antitone: +50 > -50, yet the implied probability of +50 (2/3) exceeds
that of -50 (1/3). -/
theorem odds_monotonicity_cx :
    (50 : ℚ) ≠ 0 ∧ (-50 : ℚ) ≠ 0 ∧ (-50 : ℚ) < 50 ∧
    ¬ odds_to_probability 50 ≤ odds_to_probability (-50) := by
  refine ⟨by norm_num, by norm_num, by norm_num, ?_⟩
  unfold odds_to_probability
  rw [if_pos (by norm_num : (50 : ℚ) > 0), if_neg (by norm_num : ¬ (-50 : ℚ) > 0)]
  rw [abs_of_nonpos (by norm_num : (-50 : ℚ) ≤ 0)]
  norm_num

/-- C4 amended: restricted to the American-odds convention `|odds| ≥ 100`,
the conversion is antitone (so the maximum raw odds value is the most
favorable price), and when every offered entry satisfies the convention
and carries the formula-derived implied probability, best-price selection
by numeric max returns an entry of minimal implied probability among the
offered prices. -/
theorem odds_monotonicity_amended :
    (∀ a b : ℚ, 100 ≤ |a| → 100 ≤ |b| → b < a →
      odds_to_probability a ≤ odds_to_probability b) ∧
    (∀ (game_data : GameData) (team_name : String) (m : Side),
      (∀ x ∈ offersFor game_data.books team_name,
        100 ≤ |x.odds| ∧ x.implied_prob = odds_to_probability x.odds) →
      _best_price_for_team game_data team_name = some m →
      ∀ x ∈ offersFor game_data.books team_name, m.implied_prob ≤ x.implied_prob) := by
  refine ⟨odds_prob_antitone, ?_⟩
  intro game_data team_name m hall hm
  rw [best_price_eq_bestOf] at hm
  obtain ⟨hmem, hmax⟩ := bestOf_mem_max _ m hm
  intro x hx
  obtain ⟨hxodds, hxprob⟩ := hall x hx
  obtain ⟨hmodds, hmprob⟩ := hall m hmem
  rw [hxprob, hmprob]
  rcases eq_or_lt_of_le (hmax x hx) with heq | hlt
  · rw [heq]
  · exact odds_prob_antitone m.odds x.odds hmodds hxodds hlt

/-- C4 amended witness: +150 against -150 for the antitone part, and a
one-book game for the selection part. -/
theorem odds_monotonicity_amended_witness :
    odds_to_probability 150 ≤ odds_to_probability (-150) ∧
    (∀ x ∈ offersFor [("BookA", [("H", (⟨-110, odds_to_probability (-110)⟩ : PriceEntry))])] "H",
      odds_to_probability (-110) ≤ x.implied_prob) :=
  ⟨odds_monotonicity_amended.1 150 (-150)
      (by rw [abs_of_nonneg] <;> norm_num) (by rw [abs_of_nonpos] <;> norm_num) (by norm_num),
   odds_monotonicity_amended.2
      ⟨"g", "H", "A", none, [("BookA", [("H", ⟨-110, odds_to_probability (-110)⟩)])]⟩ "H"
      ⟨"BookA", -110, odds_to_probability (-110)⟩
      (by
        intro x hx
        have hx' : x = ⟨"BookA", -110, odds_to_probability (-110)⟩ := by
          simpa [offersFor, dictGet] using hx
        subst hx'
        exact ⟨by rw [abs_of_nonpos] <;> norm_num, rfl⟩)
      rfl⟩

/-- C2: the implied-probability conversion follows the American-odds
formulas, evaluates to 0.4 at +150 and 0.6 at -150, and lies strictly in
(0,1) for every nonzero input. -/
theorem odds_to_probability_spec :
    (∀ o : ℚ, o > 0 → odds_to_probability o = 100 / (o + 100)) ∧
    (∀ o : ℚ, o ≤ 0 → odds_to_probability o = |o| / (|o| + 100)) ∧
    odds_to_probability 150 = 0.4 ∧
    odds_to_probability (-150) = 0.6 ∧
    (∀ o : ℚ, o ≠ 0 → 0 < odds_to_probability o ∧ odds_to_probability o < 1) := by
  refine ⟨?_, ?_, ?_, ?_, ?_⟩
  · intro o ho
    simp [odds_to_probability, ho]
  · intro o ho
    have : ¬ o > 0 := not_lt.mpr ho
    simp [odds_to_probability, this]
  · norm_num [odds_to_probability]
  · norm_num [odds_to_probability, abs_of_nonpos]
  · intro o ho
    unfold odds_to_probability
    split
    · rename_i hpos
      constructor
      · positivity
      · rw [div_lt_one (by linarith)]
        linarith
    · rename_i hnonpos
      have habs : 0 < |o| := abs_pos.mpr ho
      constructor
      · positivity
      · rw [div_lt_one (by linarith)]
        linarith

/-- C2 witness. -/
theorem odds_to_probability_spec_witness :
    odds_to_probability 150 = 100 / (150 + 100) ∧
    (0 < odds_to_probability (-150) ∧ odds_to_probability (-150) < 1) := by
  exact ⟨odds_to_probability_spec.1 150 (by norm_num),
    odds_to_probability_spec.2.2.2.2 (-150) (by norm_num)⟩

/-! ### Helper lemmas: unfolding the retry loop -/

theorem retry_go_success {α : Type} (net : ℕ → Resp α) (max_retries attempt : ℕ) (p : α)
    (hnet : net attempt = .success p) :
    retry_go net max_retries attempt = ([], .ok p) := by
  rw [retry_go]
  simp [hnet, _request]

theorem retry_go_raise {α : Type} (net : ℕ → Resp α) (max_retries attempt : ℕ) (e : HErr)
    (hnet : net attempt = .failure e)
    (hcond : statusOf e ≠ some 429 ∨ max_retries ≤ attempt) :
    retry_go net max_retries attempt = ([], .error e) := by
  rw [retry_go]
  simp only [hnet, _request]
  rw [dif_pos hcond]

theorem retry_go_429_step {α : Type} (net : ℕ → Resp α) (max_retries attempt : ℕ) (e : ErrResp)
    (hnet : net attempt = .failure (some e)) (h429 : e.status_code = 429)
    (hlt : attempt < max_retries) :
    retry_go net max_retries attempt =
      (wait_for e.retry_after attempt :: (retry_go net max_retries (attempt + 1)).1,
       (retry_go net max_retries (attempt + 1)).2) := by
  rw [retry_go]
  simp only [hnet, _request]
  rw [dif_neg]
  · rfl
  · push_neg
    exact ⟨by simp [statusOf, h429], by omega⟩

theorem retry_go_all429 {α : Type} (net : ℕ → Resp α) (max_retries : ℕ) :
    ∀ (k attempt : ℕ), max_retries - attempt = k → attempt ≤ max_retries →
      (∀ i, attempt ≤ i → i ≤ max_retries →
        ∃ e : ErrResp, net i = .failure (some e) ∧ e.status_code = 429) →
      (retry_go net max_retries attempt).1.length = max_retries - attempt ∧
      ∃ e : ErrResp, (retry_go net max_retries attempt).2 = .error (some e) ∧
        e.status_code = 429 := by
  intro k
  induction k with
  | zero =>
    intro attempt hk hle hall
    obtain ⟨e, hnet, h429⟩ := hall attempt le_rfl hle
    rw [retry_go_raise net max_retries attempt (some e) hnet (Or.inr (by omega))]
    exact ⟨by simp [hk], e, rfl, h429⟩
  | succ k ih =>
    intro attempt hk hle hall
    obtain ⟨e, hnet, h429⟩ := hall attempt le_rfl hle
    have hlt : attempt < max_retries := by omega
    rw [retry_go_429_step net max_retries attempt e hnet h429 hlt]
    obtain ⟨hlen, e', he', h429'⟩ := ih (attempt + 1) (by omega) (by omega)
      (fun i h1 h2 => hall i (by omega) h2)
    refine ⟨?_, e', he', h429'⟩
    simp only [List.length_cons, hlen]
    omega

/-- C5: the 429 retry policy: on a 429 whose `Retry-After` parses to a
strictly positive value, that value is the wait before the next attempt;
on a 429 whose `Retry-After` is absent, invalid, or non-positive, the
wait is `2 ^ attempt` (attempt starting at 0); when every attempt up to
and including `max_retries` yields a 429, the call performs exactly
`max_retries` waits and raises the 429 failure to the caller; and a
failure with any non-429 status is raised at once with no wait. -/
theorem retry_policy_spec :
    (∀ (α : Type) (net : ℕ → Resp α) (max_retries attempt : ℕ) (e : ErrResp) (v : ℚ),
      net attempt = .failure (some e) → e.status_code = 429 → e.retry_after = .value v →
      0 < v → attempt < max_retries →
      retry_go net max_retries attempt =
        (v :: (retry_go net max_retries (attempt + 1)).1,
         (retry_go net max_retries (attempt + 1)).2)) ∧
    (∀ (α : Type) (net : ℕ → Resp α) (max_retries attempt : ℕ) (e : ErrResp),
      net attempt = .failure (some e) → e.status_code = 429 →
      (e.retry_after = .missing ∨ e.retry_after = .badValue ∨
        ∃ v, e.retry_after = .value v ∧ v ≤ 0) →
      attempt < max_retries →
      retry_go net max_retries attempt =
        ((2 : ℚ) ^ attempt :: (retry_go net max_retries (attempt + 1)).1,
         (retry_go net max_retries (attempt + 1)).2)) ∧
    (∀ (α : Type) (net : ℕ → Resp α) (max_retries : ℕ),
      (∀ i, i ≤ max_retries → ∃ e : ErrResp, net i = .failure (some e) ∧ e.status_code = 429) →
      (_request_with_429_retry net max_retries).1.length = max_retries ∧
      ∃ e : ErrResp, (_request_with_429_retry net max_retries).2 = .error (some e) ∧
        e.status_code = 429) ∧
    (∀ (α : Type) (net : ℕ → Resp α) (max_retries attempt : ℕ) (e : HErr),
      net attempt = .failure e → statusOf e ≠ some 429 →
      retry_go net max_retries attempt = ([], .error e)) := by
  refine ⟨?_, ?_, ?_, ?_⟩
  · intro α net max_retries attempt e v hnet h429 hra hv hlt
    rw [retry_go_429_step net max_retries attempt e hnet h429 hlt, hra]
    simp [wait_for, not_le.mpr hv]
  · intro α net max_retries attempt e hnet h429 hra hlt
    rw [retry_go_429_step net max_retries attempt e hnet h429 hlt]
    rcases hra with h | h | ⟨v, h, hv⟩ <;> rw [h] <;> simp [wait_for, *]
  · intro α net max_retries hall
    obtain ⟨hlen, he⟩ := retry_go_all429 net max_retries max_retries 0 (by omega)
      (Nat.zero_le _) (fun i _ h2 => hall i h2)
    exact ⟨by simpa using hlen, he⟩
  · intro α net max_retries attempt e hnet hst
    exact retry_go_raise net max_retries attempt e hnet (Or.inl hst)

/-- C5 witness: concrete response streams exercising all four parts of
the retry policy with `max_retries = 3`. -/
theorem retry_policy_spec_witness :
    (retry_go (fun _ => (Resp.failure (some ⟨429, HeaderVal.value 2⟩) : Resp ℕ)) 3 0 =
      ((2 : ℚ) :: (retry_go (fun _ => (Resp.failure (some ⟨429, HeaderVal.value 2⟩) : Resp ℕ)) 3 1).1,
       (retry_go (fun _ => (Resp.failure (some ⟨429, HeaderVal.value 2⟩) : Resp ℕ)) 3 1).2)) ∧
    (retry_go (fun _ => (Resp.failure (some ⟨429, HeaderVal.missing⟩) : Resp ℕ)) 3 0 =
      ((2 : ℚ) ^ 0 :: (retry_go (fun _ => (Resp.failure (some ⟨429, HeaderVal.missing⟩) : Resp ℕ)) 3 1).1,
       (retry_go (fun _ => (Resp.failure (some ⟨429, HeaderVal.missing⟩) : Resp ℕ)) 3 1).2)) ∧
    ((_request_with_429_retry (fun _ => (Resp.failure (some ⟨429, HeaderVal.missing⟩) : Resp ℕ)) 3).1.length = 3 ∧
      ∃ e : ErrResp,
        (_request_with_429_retry (fun _ => (Resp.failure (some ⟨429, HeaderVal.missing⟩) : Resp ℕ)) 3).2 =
          .error (some e) ∧ e.status_code = 429) ∧
    (retry_go (fun _ => (Resp.failure (some ⟨500, HeaderVal.missing⟩) : Resp ℕ)) 3 0 =
      ([], .error (some ⟨500, HeaderVal.missing⟩))) :=
  ⟨retry_policy_spec.1 ℕ _ 3 0 ⟨429, HeaderVal.value 2⟩ 2 rfl rfl rfl (by norm_num) (by norm_num),
   retry_policy_spec.2.1 ℕ _ 3 0 ⟨429, HeaderVal.missing⟩ rfl rfl (Or.inl rfl) (by norm_num),
   retry_policy_spec.2.2.1 ℕ _ 3 (fun i _ => ⟨⟨429, HeaderVal.missing⟩, rfl, rfl⟩),
   retry_policy_spec.2.2.2 ℕ _ 3 0 (some ⟨500, HeaderVal.missing⟩) rfl (by decide)⟩

/-- C6 counterexample: a 429 response to the upcoming-games fetch is not
handled by the retry policy.  On a response stream whose first response
is a 429 (with `Retry-After: 2`) and whose second is a success, the retry
policy waits 2 seconds and returns the payload, but `fetch_upcoming_games`
raises the 429 immediately: it issues the single request and propagates
the failure. -/
theorem fetch_upcoming_games_429_cx :
    fetch_upcoming_games
        (fun n _ _ => if n = 0 then Resp.failure (some ⟨429, HeaderVal.value 2⟩)
          else Resp.success (7 : ℕ)) "nfl"
      = .error (some ⟨429, HeaderVal.value 2⟩) ∧
    _request_with_429_retry
        (fun n => if n = 0 then Resp.failure (some ⟨429, HeaderVal.value 2⟩)
          else Resp.success (7 : ℕ)) 3
      = ([2], .ok 7) := by
  constructor
  · rfl
  · rw [_request_with_429_retry,
      retry_go_429_step _ 3 0 ⟨429, HeaderVal.value 2⟩ rfl rfl (by norm_num),
      retry_go_success _ 3 1 7 rfl]
    norm_num [wait_for]

/-- C6 amended: `fetch_upcoming_games` issues a single plain request and
propagates any failure response — of any status, 429 included —
immediately to its caller; the retry policy is applied only by the
per-event prop fetch, not by the upcoming-games fetch. -/
theorem fetch_upcoming_games_amended :
    ∀ (α : Type) (net : ℕ → String → List String → Resp α) (sport_key : String) (e : HErr),
      net 0 ("/sports/" ++ resolve_sport_key sport_key ++ "/odds") ["h2h"] = .failure e →
      fetch_upcoming_games net sport_key = .error e := by
  intro α net sport_key e h
  simp [fetch_upcoming_games, _request, h]

/-- C6 amended witness: a 503 failure propagates unchanged. -/
theorem fetch_upcoming_games_amended_witness :
    fetch_upcoming_games
        ((fun _ _ _ => Resp.failure (some ⟨503, HeaderVal.missing⟩)) :
          ℕ → String → List String → Resp ℕ) "nfl"
      = .error (some ⟨503, HeaderVal.missing⟩) :=
  fetch_upcoming_games_amended ℕ
    (fun _ _ _ => Resp.failure (some ⟨503, HeaderVal.missing⟩)) "nfl"
    (some ⟨503, HeaderVal.missing⟩) rfl

/-- C7: the per-event prop fetch: an empty markets list yields the empty
payload and zero errors independently of the network (no request is
issued); a final failure of the retried request yields the empty payload
and exactly one error, with no exception escaping; a success yields the
payload with zero errors. -/
theorem fetch_event_props_spec :
    (∀ (net net' : ℕ → String → List String → Resp RawEvent) (sport_key event_id : String),
      fetch_event_props net sport_key event_id [] = (⟨[]⟩, 0) ∧
      fetch_event_props net sport_key event_id [] = fetch_event_props net' sport_key event_id []) ∧
    (∀ (net : ℕ → String → List String → Resp RawEvent) (sport_key event_id : String)
        (markets : List String) (e : HErr),
      markets ≠ [] →
      (_request_with_429_retry
          (fun n => net n
            ("/sports/" ++ resolve_sport_key sport_key ++ "/events/" ++ event_id ++ "/odds")
            markets) 3).2 = .error e →
      fetch_event_props net sport_key event_id markets = (⟨[]⟩, 1)) ∧
    (∀ (net : ℕ → String → List String → Resp RawEvent) (sport_key event_id : String)
        (markets : List String) (payload : RawEvent),
      markets ≠ [] →
      (_request_with_429_retry
          (fun n => net n
            ("/sports/" ++ resolve_sport_key sport_key ++ "/events/" ++ event_id ++ "/odds")
            markets) 3).2 = .ok payload →
      fetch_event_props net sport_key event_id markets = (payload, 0)) := by
  refine ⟨?_, ?_, ?_⟩
  · intro net net' sport_key event_id
    exact ⟨rfl, rfl⟩
  · intro net sport_key event_id markets e hne hfail
    cases markets with
    | nil => exact absurd rfl hne
    | cons m ms =>
      simp only [fetch_event_props, List.isEmpty_cons, Bool.false_eq_true, if_false]
      rw [hfail]
  · intro net sport_key event_id markets payload hne hok
    cases markets with
    | nil => exact absurd rfl hne
    | cons m ms =>
      simp only [fetch_event_props, List.isEmpty_cons, Bool.false_eq_true, if_false]
      rw [hok]

/-- C7 witness: a network that always fails with 500 yields one counted
error; a network that always succeeds yields the payload and zero errors;
an empty markets list yields zero errors without consulting the network. -/
theorem fetch_event_props_spec_witness :
    fetch_event_props
        ((fun _ _ _ => Resp.failure (some ⟨500, HeaderVal.missing⟩)) :
          ℕ → String → List String → Resp RawEvent) "nba" "ev1" ["player_points"]
      = (⟨[]⟩, 1) ∧
    fetch_event_props
        ((fun _ _ _ => Resp.success ⟨[]⟩) : ℕ → String → List String → Resp RawEvent)
        "nba" "ev1" ["player_points"]
      = (⟨[]⟩, 0) ∧
    fetch_event_props
        ((fun _ _ _ => Resp.failure (some ⟨500, HeaderVal.missing⟩)) :
          ℕ → String → List String → Resp RawEvent) "nba" "ev1" []
      = (⟨[]⟩, 0) :=
  ⟨fetch_event_props_spec.2.1 _ "nba" "ev1" ["player_points"]
      (some ⟨500, HeaderVal.missing⟩) (by simp)
      (by rw [_request_with_429_retry,
            retry_go_raise _ 3 0 (some ⟨500, HeaderVal.missing⟩) rfl (Or.inl (by decide))]),
   fetch_event_props_spec.2.2 _ "nba" "ev1" ["player_points"] ⟨[]⟩ (by simp)
      (by rw [_request_with_429_retry, retry_go_success _ 3 0 ⟨[]⟩ rfl]),
   (fetch_event_props_spec.1
      ((fun _ _ _ => Resp.failure (some ⟨500, HeaderVal.missing⟩)) :
        ℕ → String → List String → Resp RawEvent)
      (fun _ _ _ => Resp.success ⟨[]⟩) "nba" "ev1").1⟩


/-! ### Helper lemmas: element-wise behavior of the normalization folds -/

theorem foldl_skip {β γ : Type} (step : β → γ → β) (x : γ) (hx : ∀ acc, step acc x = acc)
    (l1 l2 : List γ) (init : β) :
    List.foldl step init (l1 ++ x :: l2) = List.foldl step init (l1 ++ l2) := by
  induction l1 generalizing init with
  | nil => simp [hx]
  | cons y ys ih =>
    simp only [List.cons_append, List.foldl_cons]
    exact ih _

theorem foldl_replace {β γ : Type} (step : β → γ → β) (x x' : γ)
    (hx : ∀ acc, step acc x = step acc x') (l1 l2 : List γ) (init : β) :
    List.foldl step init (l1 ++ x :: l2) = List.foldl step init (l1 ++ x' :: l2) := by
  induction l1 generalizing init with
  | nil => simp only [List.nil_append, List.foldl_cons, hx]
  | cons y ys ih =>
    simp only [List.cons_append, List.foldl_cons]
    exact ih _

theorem foldlM_replace {β γ ε : Type} (step : β → γ → Except ε β) (x x' : γ)
    (hx : ∀ acc, step acc x = step acc x') (l1 l2 : List γ) (init : β) :
    List.foldlM step init (l1 ++ x :: l2) = List.foldlM step init (l1 ++ x' :: l2) := by
  induction l1 generalizing init with
  | nil => simp only [List.nil_append, List.foldlM_cons, hx]
  | cons y ys ih =>
    simp only [List.cons_append, List.foldlM_cons]
    cases hstep : step init y with
    | error e => rfl
    | ok b => exact ih b

theorem ml_books_skip (bs1 bs2 : List RawBookmaker) (b : RawBookmaker)
    (hb : book_name_of b = none ∨ book_name_of b = some "" ∨
      b.markets.find? (fun m => m.key == some "h2h") = none) :
    moneyline_books_of (bs1 ++ b :: bs2) = moneyline_books_of (bs1 ++ bs2) := by
  unfold moneyline_books_of
  apply foldl_skip
  intro acc
  rcases hb with h | h | h
  · simp [h]
  · simp [h]
  · cases hn : book_name_of b with
    | none => simp [hn]
    | some name =>
      by_cases hne : name = ""
      · simp [hn, hne]
      · simp [hn, hne, h]

theorem ml_teams_skip (key : Option String) (os1 os2 : List RawOutcome) (o : RawOutcome)
    (ho : o.name = none ∨ o.price = none) :
    moneyline_teams_of ⟨key, os1 ++ o :: os2⟩ = moneyline_teams_of ⟨key, os1 ++ os2⟩ := by
  unfold moneyline_teams_of
  apply foldl_skip
  intro acc
  rcases ho with h | h
  · simp [h]
  · cases hn : o.name <;> simp [hn, h]

theorem prop_outcome_fix (o : RawOutcome)
    (ho : (o.name ≠ some "Over" ∧ o.name ≠ some "Under") ∨ o.description = none ∨
      o.point = none ∨ o.price = none) :
    ∀ (book_name : String) (mb : PropMarketBucket), prop_outcome_step book_name mb o = mb := by
  intro book_name mb
  unfold prop_outcome_step
  rcases ho with ⟨h1, h2⟩ | h | h | h
  · cases hn : o.name with
    | none => simp [hn]
    | some s =>
      have hs1 : s ≠ "Over" := by rintro rfl; exact h1 hn
      have hs2 : s ≠ "Under" := by rintro rfl; exact h2 hn
      cases hd : o.description with
      | none => simp [hn, hd]
      | some player =>
        cases hp : o.point with
        | none => simp [hn, hd, hp]
        | some line =>
          cases hq : o.price with
          | none => simp [hn, hd, hp, hq]
          | some odds => simp [hn, hd, hp, hq, hs1, hs2]
  · cases hn : o.name <;> simp [hn, h]
  · cases hn : o.name <;> cases hd : o.description <;> simp [hn, hd, h]
  · cases hn : o.name <;> cases hd : o.description <;> cases hp : o.point <;> simp [hn, hd, hp, h]


theorem ml_normalize_books_skip (gs1 gs2 : List RawGame) (g : RawGame)
    (bs1 bs2 : List RawBookmaker) (b : RawBookmaker)
    (hb : book_name_of b = none ∨ book_name_of b = some "" ∨
      b.markets.find? (fun m => m.key == some "h2h") = none) :
    normalize_moneyline_odds (gs1 ++ { g with bookmakers := bs1 ++ b :: bs2 } :: gs2) =
      normalize_moneyline_odds (gs1 ++ { g with bookmakers := bs1 ++ bs2 } :: gs2) := by
  obtain ⟨gid, gh, ga, gc, gb⟩ := g
  unfold normalize_moneyline_odds
  apply foldlM_replace
  intro acc
  dsimp only
  rw [ml_books_skip bs1 bs2 b hb]

theorem prop_markets_replace (book_name : String) (mks1 mks2 : List RawMarket)
    (mkey : Option String) (os1 os2 : List RawOutcome) (o : RawOutcome)
    (ho : (o.name ≠ some "Over" ∧ o.name ≠ some "Under") ∨ o.description = none ∨
      o.point = none ∨ o.price = none) :
    ∀ acc : PropMarkets,
      (mks1 ++ (⟨mkey, os1 ++ o :: os2⟩ : RawMarket) :: mks2).foldl
        (fun acc market =>
          match market.key with
          | none => acc
          | some market_type =>
            if market_type = "" then acc
            else
              dictUpdate acc market_type []
                (fun market_bucket =>
                  market.outcomes.foldl (prop_outcome_step book_name) market_bucket)) acc =
      (mks1 ++ (⟨mkey, os1 ++ os2⟩ : RawMarket) :: mks2).foldl
        (fun acc market =>
          match market.key with
          | none => acc
          | some market_type =>
            if market_type = "" then acc
            else
              dictUpdate acc market_type []
                (fun market_bucket =>
                  market.outcomes.foldl (prop_outcome_step book_name) market_bucket)) acc := by
  intro acc
  apply foldl_replace
  intro acc2
  dsimp only
  have key : (fun market_bucket =>
        List.foldl (prop_outcome_step book_name) market_bucket (os1 ++ o :: os2)) =
      fun market_bucket => List.foldl (prop_outcome_step book_name) market_bucket (os1 ++ os2) :=
    funext fun mbk => foldl_skip _ o (fun a => prop_outcome_fix o ho book_name a) os1 os2 mbk
  exact congrArg
    (fun f => match mkey with
      | none => acc2
      | some market_type => if market_type = "" then acc2 else dictUpdate acc2 market_type [] f)
    key

theorem prop_normalize_skip (game_id : String) (bms1 bms2 : List RawBookmaker)
    (bm : RawBookmaker) (mks1 mks2 : List RawMarket) (mk : RawMarket)
    (os1 os2 : List RawOutcome) (o : RawOutcome)
    (ho : (o.name ≠ some "Over" ∧ o.name ≠ some "Under") ∨ o.description = none ∨
      o.point = none ∨ o.price = none) :
    normalize_prop_odds game_id
        ⟨bms1 ++ { bm with markets := mks1 ++ { mk with outcomes := os1 ++ o :: os2 } :: mks2 } :: bms2⟩ =
      normalize_prop_odds game_id
        ⟨bms1 ++ { bm with markets := mks1 ++ { mk with outcomes := os1 ++ os2 } :: mks2 } :: bms2⟩ := by
  unfold normalize_prop_odds
  refine congrArg (fun m => [(game_id, m)]) ?_
  apply foldl_replace
  intro acc
  dsimp only
  rw [show book_name_of { bm with markets := mks1 ++ { mk with outcomes := os1 ++ os2 } :: mks2 } =
        book_name_of { bm with markets := mks1 ++ { mk with outcomes := os1 ++ o :: os2 } :: mks2 } from rfl]
  cases hb : book_name_of { bm with markets := mks1 ++ { mk with outcomes := os1 ++ o :: os2 } :: mks2 } with
  | none => rfl
  | some name =>
    exact congrArg (fun z => if name = "" then acc else z)
      (prop_markets_replace name mks1 mks2 mk.key os1 os2 o ho acc)


/-- C8: normalization skips malformed data at the smallest granularity and
never disturbs sibling records: a bookmaker with no usable name, or
without an `h2h` market, is excluded while sibling bookmakers are kept
(both at the books level and inside `normalize_moneyline_odds`); an
outcome missing its team name or price is skipped while sibling outcomes
are kept; and a prop outcome whose side is not exactly `Over`/`Under`, or
missing player, line, or price, is excluded from its bucket while
same-bucket outcomes are kept (both at the bucket fold level and inside
`normalize_prop_odds`). -/
theorem normalization_granularity_spec :
    (∀ (bs1 bs2 : List RawBookmaker) (b : RawBookmaker),
      (book_name_of b = none ∨ book_name_of b = some "") →
      moneyline_books_of (bs1 ++ b :: bs2) = moneyline_books_of (bs1 ++ bs2)) ∧
    (∀ (bs1 bs2 : List RawBookmaker) (b : RawBookmaker),
      b.markets.find? (fun m => m.key == some "h2h") = none →
      moneyline_books_of (bs1 ++ b :: bs2) = moneyline_books_of (bs1 ++ bs2)) ∧
    (∀ (key : Option String) (os1 os2 : List RawOutcome) (o : RawOutcome),
      (o.name = none ∨ o.price = none) →
      moneyline_teams_of ⟨key, os1 ++ o :: os2⟩ = moneyline_teams_of ⟨key, os1 ++ os2⟩) ∧
    (∀ (gs1 gs2 : List RawGame) (g : RawGame) (bs1 bs2 : List RawBookmaker) (b : RawBookmaker),
      (book_name_of b = none ∨ book_name_of b = some "" ∨
        b.markets.find? (fun m => m.key == some "h2h") = none) →
      normalize_moneyline_odds (gs1 ++ { g with bookmakers := bs1 ++ b :: bs2 } :: gs2) =
        normalize_moneyline_odds (gs1 ++ { g with bookmakers := bs1 ++ bs2 } :: gs2)) ∧
    (∀ (book_name : String) (mb : PropMarketBucket) (os1 os2 : List RawOutcome) (o : RawOutcome),
      ((o.name ≠ some "Over" ∧ o.name ≠ some "Under") ∨ o.description = none ∨
        o.point = none ∨ o.price = none) →
      (os1 ++ o :: os2).foldl (prop_outcome_step book_name) mb =
        (os1 ++ os2).foldl (prop_outcome_step book_name) mb) ∧
    (∀ (game_id : String) (bms1 bms2 : List RawBookmaker) (bm : RawBookmaker)
        (mks1 mks2 : List RawMarket) (mk : RawMarket)
        (os1 os2 : List RawOutcome) (o : RawOutcome),
      ((o.name ≠ some "Over" ∧ o.name ≠ some "Under") ∨ o.description = none ∨
        o.point = none ∨ o.price = none) →
      normalize_prop_odds game_id
          ⟨bms1 ++ { bm with markets := mks1 ++ { mk with outcomes := os1 ++ o :: os2 } :: mks2 } :: bms2⟩ =
        normalize_prop_odds game_id
          ⟨bms1 ++ { bm with markets := mks1 ++ { mk with outcomes := os1 ++ os2 } :: mks2 } :: bms2⟩) :=
  ⟨fun bs1 bs2 b hb => ml_books_skip bs1 bs2 b (hb.imp id Or.inl),
   fun bs1 bs2 b hb => ml_books_skip bs1 bs2 b (Or.inr (Or.inr hb)),
   fun key os1 os2 o ho => ml_teams_skip key os1 os2 o ho,
   fun gs1 gs2 g bs1 bs2 b hb => ml_normalize_books_skip gs1 gs2 g bs1 bs2 b hb,
   fun book_name mb os1 os2 o ho =>
     foldl_skip _ o (fun acc => prop_outcome_fix o ho book_name acc) os1 os2 mb,
   fun game_id bms1 bms2 bm mks1 mks2 mk os1 os2 o ho =>
     prop_normalize_skip game_id bms1 bms2 bm mks1 mks2 mk os1 os2 o ho⟩

/-- C8 witness: concrete malformed records are dropped without touching
their well-formed siblings, for every part of the claim. -/
theorem normalization_granularity_spec_witness :
    moneyline_books_of
        [⟨none, none, []⟩,
         ⟨some "B2", none, [⟨some "h2h", [⟨some "H", none, none, some 120⟩]⟩]⟩] =
      moneyline_books_of
        [⟨some "B2", none, [⟨some "h2h", [⟨some "H", none, none, some 120⟩]⟩]⟩] ∧
    moneyline_books_of
        [⟨some "B1", none, []⟩,
         ⟨some "B2", none, [⟨some "h2h", [⟨some "H", none, none, some 120⟩]⟩]⟩] =
      moneyline_books_of
        [⟨some "B2", none, [⟨some "h2h", [⟨some "H", none, none, some 120⟩]⟩]⟩] ∧
    moneyline_teams_of
        ⟨some "h2h", [⟨none, none, none, some 120⟩, ⟨some "H", none, none, some 120⟩]⟩ =
      moneyline_teams_of ⟨some "h2h", [⟨some "H", none, none, some 120⟩]⟩ ∧
    normalize_moneyline_odds
        [⟨some "g1", some "H", some "A", none, [⟨none, none, []⟩]⟩] =
      normalize_moneyline_odds [⟨some "g1", some "H", some "A", none, []⟩] ∧
    ([⟨some "Middle", some "P", some 10, some 110⟩,
      ⟨some "Over", some "P", some 10, some 110⟩] : List RawOutcome).foldl
        (prop_outcome_step "B") [] =
      ([⟨some "Over", some "P", some 10, some 110⟩] : List RawOutcome).foldl
        (prop_outcome_step "B") [] ∧
    normalize_prop_odds "g1"
        ⟨[⟨some "B", none, [⟨some "player_points",
            [⟨some "Middle", some "P", some 10, some 110⟩,
             ⟨some "Over", some "P", some 10, some 110⟩]⟩]⟩]⟩ =
      normalize_prop_odds "g1"
        ⟨[⟨some "B", none, [⟨some "player_points",
            [⟨some "Over", some "P", some 10, some 110⟩]⟩]⟩]⟩ :=
  ⟨normalization_granularity_spec.1 [] _ ⟨none, none, []⟩ (Or.inl rfl),
   normalization_granularity_spec.2.1 [] _ ⟨some "B1", none, []⟩ rfl,
   normalization_granularity_spec.2.2.1 (some "h2h") []
     [⟨some "H", none, none, some 120⟩] ⟨none, none, none, some 120⟩ (Or.inl rfl),
   normalization_granularity_spec.2.2.2.1 [] [] ⟨some "g1", some "H", some "A", none, []⟩
     [] [] ⟨none, none, []⟩ (Or.inl rfl),
   normalization_granularity_spec.2.2.2.2.1 "B" [] []
     [⟨some "Over", some "P", some 10, some 110⟩]
     ⟨some "Middle", some "P", some 10, some 110⟩ (Or.inl (by decide)),
   normalization_granularity_spec.2.2.2.2.2 "g1" [] [] ⟨some "B", none, []⟩ [] []
     ⟨some "player_points", []⟩ [] [⟨some "Over", some "P", some 10, some 110⟩]
     ⟨some "Middle", some "P", some 10, some 110⟩ (Or.inl (by decide))⟩


/-! ### Helper lemmas: the detectors as flat maps over their inputs -/

theorem detect_ml_foldl (games : List (String × GameData)) :
    ∀ init : List OppRow,
      games.foldl
        (fun opportunities gp =>
          let home := _best_price_for_team gp.2 gp.2.home_team
          let away := _best_price_for_team gp.2 gp.2.away_team
          match detect_two_way_arbitrage home away with
          | none => opportunities
          | some arb =>
            opportunities ++
              [{ game_id := gp.1
                 market_type := "h2h"
                 player_name := none
                 line_value := none
                 home_team := some gp.2.home_team
                 away_team := some gp.2.away_team
                 arb := arb }])
        init = init ++ games.flatMap ml_rows_of := by
  induction games with
  | nil => intro init; simp
  | cons gp gps ih =>
    intro init
    rw [List.foldl_cons, List.flatMap_cons]
    cases harb : detect_two_way_arbitrage (_best_price_for_team gp.2 gp.2.home_team)
        (_best_price_for_team gp.2 gp.2.away_team) with
    | none => simp only [harb, ih, ml_rows_of]; simp
    | some arb => simp only [harb, ih, ml_rows_of]; simp

theorem detect_moneyline_eq (games : List (String × GameData)) :
    detect_moneyline_arbitrage games = games.flatMap ml_rows_of := by
  have h := detect_ml_foldl games []
  simpa [detect_moneyline_arbitrage] using h

theorem detect_prop_pl_foldl (game_id market_type : String)
    (pls : List (String × PlayerLineEntry)) :
    ∀ init : List OppRow,
      pls.foldl
        (fun opportunities pl =>
          let over := _best_prop_side pl.2.books "Over"
          let under := _best_prop_side pl.2.books "Under"
          match detect_two_way_arbitrage over under with
          | none => opportunities
          | some arb =>
            opportunities ++
              [{ game_id := game_id
                 market_type := market_type
                 player_name := some pl.2.player
                 line_value := some pl.2.line
                 home_team := none
                 away_team := none
                 arb := arb }])
        init = init ++ pls.flatMap (prop_rows_of game_id market_type) := by
  induction pls with
  | nil => intro init; simp
  | cons pl pls ih =>
    intro init
    rw [List.foldl_cons, List.flatMap_cons]
    cases harb : detect_two_way_arbitrage (_best_prop_side pl.2.books "Over")
        (_best_prop_side pl.2.books "Under") with
    | none => simp only [harb, ih, prop_rows_of]; simp
    | some arb => simp only [harb, ih, prop_rows_of]; simp

theorem detect_prop_mk_foldl (game_id : String) (mps : PropMarkets) :
    ∀ init : List OppRow,
      mps.foldl
        (fun opportunities mp =>
          mp.2.foldl
            (fun opportunities pl =>
              let over := _best_prop_side pl.2.books "Over"
              let under := _best_prop_side pl.2.books "Under"
              match detect_two_way_arbitrage over under with
              | none => opportunities
              | some arb =>
                opportunities ++
                  [{ game_id := game_id
                     market_type := mp.1
                     player_name := some pl.2.player
                     line_value := some pl.2.line
                     home_team := none
                     away_team := none
                     arb := arb }])
            opportunities)
        init = init ++ mps.flatMap (fun mp => mp.2.flatMap (prop_rows_of game_id mp.1)) := by
  induction mps with
  | nil => intro init; simp
  | cons mp mps ih =>
    intro init
    rw [List.foldl_cons, List.flatMap_cons, ih, detect_prop_pl_foldl game_id mp.1 mp.2 init]
    simp

theorem detect_prop_eq (props : List (String × PropMarkets)) :
    detect_prop_arbitrage props =
      props.flatMap (fun gp => gp.2.flatMap (fun mp => mp.2.flatMap (prop_rows_of gp.1 mp.1))) := by
  suffices h : ∀ init : List OppRow,
      props.foldl
        (fun opportunities gp =>
          gp.2.foldl
            (fun opportunities mp =>
              mp.2.foldl
                (fun opportunities pl =>
                  let over := _best_prop_side pl.2.books "Over"
                  let under := _best_prop_side pl.2.books "Under"
                  match detect_two_way_arbitrage over under with
                  | none => opportunities
                  | some arb =>
                    opportunities ++
                      [{ game_id := gp.1
                         market_type := mp.1
                         player_name := some pl.2.player
                         line_value := some pl.2.line
                         home_team := none
                         away_team := none
                         arb := arb }])
                opportunities)
            opportunities)
        init =
      init ++ props.flatMap (fun gp => gp.2.flatMap (fun mp => mp.2.flatMap (prop_rows_of gp.1 mp.1))) by
    simpa [detect_prop_arbitrage] using h []
  induction props with
  | nil => intro init; simp
  | cons gp gps ih =>
    intro init
    rw [List.foldl_cons, List.flatMap_cons, ih, detect_prop_mk_foldl gp.1 gp.2 init]
    simp


/-- C9: no cross-bookmaker requirement is enforced: two sides from the
same bookmaker whose implied probabilities sum below 1 yield an
opportunity from the two-way evaluation, and both the moneyline and the
prop detector emit a row for a game (resp. player-line bucket) whose best
prices on the two opposing sides come from one and the same bookmaker. -/
theorem same_book_opportunity_spec :
    (∀ a b : Side, a.book = b.book → a.implied_prob + b.implied_prob < 1 →
      ∃ r, detect_two_way_arbitrage (some a) (some b) = some r ∧
        r.over_book = a.book ∧ r.under_book = b.book) ∧
    (∀ (games : List (String × GameData)) (gp : String × GameData) (h a : Side),
      gp ∈ games →
      _best_price_for_team gp.2 gp.2.home_team = some h →
      _best_price_for_team gp.2 gp.2.away_team = some a →
      h.book = a.book → h.implied_prob + a.implied_prob < 1 →
      ∃ row ∈ detect_moneyline_arbitrage games,
        row.game_id = gp.1 ∧ row.arb.over_book = h.book ∧ row.arb.under_book = a.book) ∧
    (∀ (props : List (String × PropMarkets)) (gp : String × PropMarkets)
        (mp : String × PropMarketBucket) (pl : String × PlayerLineEntry) (over under : Side),
      gp ∈ props → mp ∈ gp.2 → pl ∈ mp.2 →
      _best_prop_side pl.2.books "Over" = some over →
      _best_prop_side pl.2.books "Under" = some under →
      over.book = under.book → over.implied_prob + under.implied_prob < 1 →
      ∃ row ∈ detect_prop_arbitrage props,
        row.game_id = gp.1 ∧ row.market_type = mp.1 ∧
        row.arb.over_book = over.book ∧ row.arb.under_book = under.book) := by
  refine ⟨?_, ?_, ?_⟩
  · intro a b _ hsum
    exact ⟨{ profit_percent := pythonRound ((1 - (a.implied_prob + b.implied_prob)) * 100) 3
             over_book := a.book
             under_book := b.book
             over_odds := a.odds
             under_odds := b.odds },
      by simp [detect_two_way_arbitrage, ge_iff_le, not_le.mpr hsum], rfl, rfl⟩
  · intro games gp h a hmem hh ha _ hsum
    have harb : detect_two_way_arbitrage (some h) (some a) =
        some { profit_percent := pythonRound ((1 - (h.implied_prob + a.implied_prob)) * 100) 3
               over_book := h.book
               under_book := a.book
               over_odds := h.odds
               under_odds := a.odds } := by
      simp [detect_two_way_arbitrage, ge_iff_le, not_le.mpr hsum]
    rw [detect_moneyline_eq]
    refine ⟨{ game_id := gp.1
              market_type := "h2h"
              player_name := none
              line_value := none
              home_team := some gp.2.home_team
              away_team := some gp.2.away_team
              arb := { profit_percent :=
                         pythonRound ((1 - (h.implied_prob + a.implied_prob)) * 100) 3
                       over_book := h.book
                       under_book := a.book
                       over_odds := h.odds
                       under_odds := a.odds } },
      List.mem_flatMap.mpr ⟨gp, hmem, ?_⟩, rfl, rfl, rfl⟩
    simp [ml_rows_of, hh, ha, harb]
  · intro props gp mp pl over under hgp hmp hpl hov hun _ hsum
    have harb : detect_two_way_arbitrage (some over) (some under) =
        some { profit_percent := pythonRound ((1 - (over.implied_prob + under.implied_prob)) * 100) 3
               over_book := over.book
               under_book := under.book
               over_odds := over.odds
               under_odds := under.odds } := by
      simp [detect_two_way_arbitrage, ge_iff_le, not_le.mpr hsum]
    rw [detect_prop_eq]
    refine ⟨{ game_id := gp.1
              market_type := mp.1
              player_name := some pl.2.player
              line_value := some pl.2.line
              home_team := none
              away_team := none
              arb := { profit_percent :=
                         pythonRound ((1 - (over.implied_prob + under.implied_prob)) * 100) 3
                       over_book := over.book
                       under_book := under.book
                       over_odds := over.odds
                       under_odds := under.odds } },
      List.mem_flatMap.mpr ⟨gp, hgp, List.mem_flatMap.mpr ⟨mp, hmp,
        List.mem_flatMap.mpr ⟨pl, hpl, ?_⟩⟩⟩, rfl, rfl, rfl, rfl⟩
    simp [prop_rows_of, hov, hun, harb]

/-- C9 witness: one bookmaker holds both best prices and an opportunity
is still emitted, for the two-way evaluation, the moneyline detector, and
the prop detector. -/
theorem same_book_opportunity_spec_witness :
    (∃ r, detect_two_way_arbitrage (some ⟨"B", 150, 0⟩) (some ⟨"B", 150, 0⟩) = some r ∧
      r.over_book = "B" ∧ r.under_book = "B") ∧
    (∃ row ∈ detect_moneyline_arbitrage
        [("g1", ⟨"g1", "H", "A", none, [("B", [("H", ⟨150, 0⟩), ("A", ⟨150, 0⟩)])]⟩)],
      row.game_id = "g1" ∧ row.arb.over_book = "B" ∧ row.arb.under_book = "B") ∧
    (∃ row ∈ detect_prop_arbitrage
        [("g1", [("player_points",
          [("P|10", ⟨"P", 10, [("B", [("Over", ⟨100, 0⟩), ("Under", ⟨100, 0⟩)])]⟩)])])],
      row.game_id = "g1" ∧ row.market_type = "player_points" ∧
      row.arb.over_book = "B" ∧ row.arb.under_book = "B") :=
  ⟨same_book_opportunity_spec.1 ⟨"B", 150, 0⟩ ⟨"B", 150, 0⟩ rfl (by norm_num),
   same_book_opportunity_spec.2.1
     [("g1", ⟨"g1", "H", "A", none, [("B", [("H", ⟨150, 0⟩), ("A", ⟨150, 0⟩)])]⟩)]
     ("g1", ⟨"g1", "H", "A", none, [("B", [("H", ⟨150, 0⟩), ("A", ⟨150, 0⟩)])]⟩)
     ⟨"B", 150, 0⟩ ⟨"B", 150, 0⟩ (List.mem_singleton.mpr rfl) (by decide) (by decide)
     rfl (by norm_num),
   same_book_opportunity_spec.2.2
     [("g1", [("player_points",
       [("P|10", ⟨"P", 10, [("B", [("Over", ⟨100, 0⟩), ("Under", ⟨100, 0⟩)])]⟩)])])]
     ("g1", [("player_points",
       [("P|10", ⟨"P", 10, [("B", [("Over", ⟨100, 0⟩), ("Under", ⟨100, 0⟩)])]⟩)])])
     ("player_points",
       [("P|10", ⟨"P", 10, [("B", [("Over", ⟨100, 0⟩), ("Under", ⟨100, 0⟩)])]⟩)])
     ("P|10", ⟨"P", 10, [("B", [("Over", ⟨100, 0⟩), ("Under", ⟨100, 0⟩)])]⟩)
     ⟨"B", 100, 0⟩ ⟨"B", 100, 0⟩
     (List.mem_singleton.mpr rfl) (List.mem_singleton.mpr rfl) (List.mem_singleton.mpr rfl)
     (by decide) (by decide) rfl (by norm_num)⟩


/-! ### Helper lemmas: keys of dict inserts and the normalization fold -/

theorem dictInsert_keys_mem {α : Type} (l : List (String × α)) (k : String) (v : α) (s : String) :
    s ∈ (dictInsert l k v).map Prod.fst ↔ s ∈ l.map Prod.fst ∨ s = k := by
  induction l with
  | nil => simp [dictInsert]
  | cons p rest ih =>
    obtain ⟨k', v'⟩ := p
    by_cases h : k' = k
    · subst h
      simp [dictInsert]
      tauto
    · simp [dictInsert, h, ih]
      tauto

theorem dictInsert_keys_nodup {α : Type} (l : List (String × α)) (k : String) (v : α)
    (hl : (l.map Prod.fst).Nodup) : ((dictInsert l k v).map Prod.fst).Nodup := by
  induction l with
  | nil => simp [dictInsert]
  | cons p rest ih =>
    obtain ⟨k', v'⟩ := p
    simp only [List.map_cons, List.nodup_cons] at hl
    by_cases h : k' = k
    · subst h
      simpa [dictInsert] using hl
    · simp only [dictInsert, if_neg h, List.map_cons, List.nodup_cons]
      refine ⟨?_, ih hl.2⟩
      rw [dictInsert_keys_mem]
      push_neg
      exact ⟨hl.1, h⟩

theorem normalize_ml_error_aux :
    ∀ (gs : List RawGame) (acc : List (String × GameData)),
      (∃ g ∈ gs, g.id = none ∨ g.home_team = none ∨ g.away_team = none) →
      ∃ e, gs.foldlM
        (fun normalized game =>
          match game.id with
          | none => .error "id"
          | some game_id =>
            match game.home_team with
            | none => .error "home_team"
            | some home_team =>
              match game.away_team with
              | none => .error "away_team"
              | some away_team =>
                .ok (dictInsert normalized game_id
                  { game_id := game_id
                    home_team := home_team
                    away_team := away_team
                    commence_time := game.commence_time
                    books := moneyline_books_of game.bookmakers }))
        acc = (Except.error e : Except String (List (String × GameData))) := by
  intro gs
  induction gs with
  | nil =>
    intro acc hbad
    simp at hbad
  | cons g gs ih =>
    intro acc hbad
    cases hid : g.id with
    | none => exact ⟨"id", by simp only [List.foldlM_cons, hid]; rfl⟩
    | some gid =>
      cases hhome : g.home_team with
      | none => exact ⟨"home_team", by simp only [List.foldlM_cons, hid, hhome]; rfl⟩
      | some gh =>
        cases haway : g.away_team with
        | none => exact ⟨"away_team", by simp only [List.foldlM_cons, hid, hhome, haway]; rfl⟩
        | some ga =>
          obtain ⟨g', hg', hbad'⟩ := hbad
          rcases List.mem_cons.mp hg' with rfl | hg''
          · rcases hbad' with h | h | h <;> simp_all
          · obtain ⟨e, he⟩ := ih _ ⟨g', hg'', hbad'⟩
            refine ⟨e, ?_⟩
            simp only [List.foldlM_cons, hid, hhome, haway]
            exact he

theorem normalize_ml_ok_aux :
    ∀ (gs : List RawGame) (acc : List (String × GameData)),
      (∀ g ∈ gs, g.id ≠ none ∧ g.home_team ≠ none ∧ g.away_team ≠ none) →
      (acc.map Prod.fst).Nodup →
      ∃ m, gs.foldlM
        (fun normalized game =>
          match game.id with
          | none => .error "id"
          | some game_id =>
            match game.home_team with
            | none => .error "home_team"
            | some home_team =>
              match game.away_team with
              | none => .error "away_team"
              | some away_team =>
                .ok (dictInsert normalized game_id
                  { game_id := game_id
                    home_team := home_team
                    away_team := away_team
                    commence_time := game.commence_time
                    books := moneyline_books_of game.bookmakers }))
        acc = (Except.ok m : Except String (List (String × GameData))) ∧
        (∀ s, s ∈ m.map Prod.fst ↔ s ∈ acc.map Prod.fst ∨ ∃ g ∈ gs, g.id = some s) ∧
        (m.map Prod.fst).Nodup := by
  intro gs
  induction gs with
  | nil =>
    intro acc _ hnd
    exact ⟨acc, rfl, by simp, hnd⟩
  | cons g gs ih =>
    intro acc hall hnd
    obtain ⟨hid0, hhome0, haway0⟩ := hall g (List.mem_cons_self g gs)
    cases hid : g.id with
    | none => exact absurd hid hid0
    | some gid =>
      cases hhome : g.home_team with
      | none => exact absurd hhome hhome0
      | some gh =>
        cases haway : g.away_team with
        | none => exact absurd haway haway0
        | some ga =>
          obtain ⟨m, hm, hiff, hnd'⟩ :=
            ih (dictInsert acc gid
                { game_id := gid
                  home_team := gh
                  away_team := ga
                  commence_time := g.commence_time
                  books := moneyline_books_of g.bookmakers })
              (fun g' hg' => hall g' (List.mem_cons_of_mem g hg'))
              (dictInsert_keys_nodup acc gid _ hnd)
          refine ⟨m, ?_, ?_, hnd'⟩
          · simp only [List.foldlM_cons, hid, hhome, haway]
            exact hm
          · intro s
            rw [hiff s, dictInsert_keys_mem]
            constructor
            · rintro ((h | h) | h)
              · exact Or.inl h
              · exact Or.inr ⟨g, List.mem_cons_self g gs, by rw [hid, h]⟩
              · obtain ⟨g', hg', h'⟩ := h
                exact Or.inr ⟨g', List.mem_cons_of_mem g hg', h'⟩
            · rintro (h | ⟨g', hg', h'⟩)
              · exact Or.inl (Or.inl h)
              · rcases List.mem_cons.mp hg' with rfl | hg''
                · exact Or.inl (Or.inr (Option.some.inj (hid.symm.trans h')).symm)
                · exact Or.inr ⟨g', hg'', h'⟩

/-- C10: moneyline normalization is total exactly under the precondition
that every raw game carries `id`, `home_team`, and `away_team`: if any
game lacks one of them the whole normalization aborts with an error
(yielding no output at all), while under the precondition it never fails,
whatever the shape of the nested bookmaker/market/outcome records, and
its output has exactly one entry per distinct input game id. -/
theorem normalize_moneyline_totality_spec :
    (∀ raw_games : List RawGame,
      (∃ g ∈ raw_games, g.id = none ∨ g.home_team = none ∨ g.away_team = none) →
      ∃ e, normalize_moneyline_odds raw_games = .error e) ∧
    (∀ raw_games : List RawGame,
      (∀ g ∈ raw_games, g.id ≠ none ∧ g.home_team ≠ none ∧ g.away_team ≠ none) →
      ∃ m, normalize_moneyline_odds raw_games = .ok m ∧
        (∀ s, s ∈ m.map Prod.fst ↔ ∃ g ∈ raw_games, g.id = some s) ∧
        (m.map Prod.fst).Nodup) := by
  constructor
  · intro raw_games hbad
    exact normalize_ml_error_aux raw_games [] hbad
  · intro raw_games hall
    obtain ⟨m, hm, hiff, hnd⟩ := normalize_ml_ok_aux raw_games [] hall (by simp)
    refine ⟨m, hm, ?_, hnd⟩
    intro s
    rw [hiff s]
    simp

/-- C10 witness: a game without an `id` aborts normalization; a list of
well-formed games (one with no bookmakers at all) normalizes to one entry
per distinct game id. -/
theorem normalize_moneyline_totality_spec_witness :
    (∃ e, normalize_moneyline_odds
        [⟨none, some "H", some "A", none, []⟩] = .error e) ∧
    (∃ m, normalize_moneyline_odds
        [⟨some "g1", some "H", some "A", none, []⟩] = .ok m ∧
      (∀ s, s ∈ m.map Prod.fst ↔
        ∃ g ∈ [(⟨some "g1", some "H", some "A", none, []⟩ : RawGame)], g.id = some s) ∧
      (m.map Prod.fst).Nodup) :=
  ⟨normalize_moneyline_totality_spec.1 [⟨none, some "H", some "A", none, []⟩]
     ⟨⟨none, some "H", some "A", none, []⟩, List.mem_singleton.mpr rfl, Or.inl rfl⟩,
   normalize_moneyline_totality_spec.2 [⟨some "g1", some "H", some "A", none, []⟩]
     (by decide)⟩

end ArbEngine
